import Mathlib

/-!
Verification of the weekly-aggregation core of the Radius-Finance dashboard
(`dashboard.js`).

Modelling conventions:

* Calendar dates are modelled as integers counting days since the Unix epoch
  (1970-01-01, a Thursday).  An ISO `YYYY-MM-DD` string is in bijection with
  its epoch-day number, and lexicographic comparison of ISO strings agrees
  with integer comparison of epoch days, so JavaScript's string comparison
  `s > e` on ISO dates is modelled as `Int` comparison.
* JavaScript `Date` semantics are taken at UTC offset 0: `new Date(iso)` on a
  date-only string is UTC midnight, `getDay()` of epoch day `d` is
  `(d + 4) % 7` (0 = Sunday), `setDate(getDate() + k)` adds `k` days, and
  `setHours(0,0,0,0)` is the identity on a UTC-midnight date.
* Numeric amounts are modelled as rationals; `Number.prototype.toFixed(2)`
  is rounding to the nearest hundredth with ties toward the larger value.
* JavaScript `Map` objects are modelled as association lists in insertion
  order: `set` replaces in place when the key is present and appends
  otherwise; `get` returns the value at the first matching key.
-/

/-- Model of `weekStartISO` (dashboard.js lines 31–38): the Monday at or before the
given date.  `day = d.getDay()` is `(d + 4) % 7`; the shift is `-6` on
Sunday and `1 - day` otherwise. -/
def weekStartISO (d : Int) : Int :=
  let day : Int := (d + 4) % 7
  let diff : Int := if day = 0 then -6 else 1 - day
  d + diff

/-- Loop of `weeksFromRange` (dashboard.js lines 142–146): starting at the
bucketed start Monday, push each Monday `≤` the bucketed end Monday, breaking
once the accumulated list is longer than 520 entries. -/
def weeksFromRangeLoop (mondayEnd : Int) (d : Int) (acc : List Int) : List Int :=
  if h : d ≤ mondayEnd then
    let acc' := acc ++ [d]
    if 520 < acc'.length then acc'
    else weeksFromRangeLoop mondayEnd (d + 7) acc'
  else acc
termination_by (mondayEnd + 7 - d).toNat
decreasing_by
  simp_wf
  omega

/-- Model of `weeksFromRange` (dashboard.js lines 126–148): every Monday from the
start date's bucket Monday to the end date's bucket Monday inclusive,
stepping 7 days, with the safety break.  The source inlines the same
Monday computation as `weekStartISO`. -/
def weeksFromRange (startDay endDay : Int) : List Int :=
  weeksFromRangeLoop (weekStartISO endDay) (weekStartISO startDay) []

/-- The range selection of `drawChartForUser` (dashboard.js lines 229–236):
if the raw start compares later than the raw end the pair is swapped, then
`weeksFromRange` is applied. -/
def weeksInRange (s e : Int) : List Int :=
  if e < s then weeksFromRange e s else weeksFromRange s e

/-- Loop of `lastNWeeksEndingAt` (dashboard.js lines 54–58):
`for (i = n-1; i >= 0; i--)` pushes `monday - 7*i`, so the list for `i+1`
iterations is `monday - 7*i` followed by the list for `i` iterations. -/
def lastNWeeksLoop (monday : Int) : Nat → List Int
  | 0 => []
  | i + 1 => (monday - 7 * (i : Int)) :: lastNWeeksLoop monday i

/-- Model of `lastNWeeksEndingAt` (dashboard.js lines 45–60): the Monday of the end
date's week, then the countdown loop.  The source inlines the same Monday
computation as `weekStartISO`. -/
def lastNWeeksEndingAt (n : Nat) (endDay : Int) : List Int :=
  lastNWeeksLoop (weekStartISO endDay) n

/-- C1: for every date `d`, `weekStart (weekStart d) = weekStart d`: the
week-bucketing operation is idempotent. -/
theorem weekStartISO_idempotent (d : Int) :
    weekStartISO (weekStartISO d) = weekStartISO d := by
  simp only [weekStartISO]
  split_ifs <;> omega

/-- C4: for every pair of dates, `weeksInRange a b = weeksInRange b a`: the
caller swaps the endpoints when the first compares later than the second, so
argument order never changes the produced week labels. -/
theorem weeksInRange_comm (a b : Int) :
    weeksInRange a b = weeksInRange b a := by
  unfold weeksInRange
  rcases lt_trichotomy a b with h | h | h
  · rw [if_neg (by omega), if_pos h]
  · simp [h]
  · rw [if_pos h, if_neg (by omega)]

lemma lastNWeeksLoop_length (m : Int) (n : Nat) : (lastNWeeksLoop m n).length = n := by
  induction n with
  | zero => rfl
  | succ n ih => simp [lastNWeeksLoop, ih]

lemma lastNWeeksLoop_getElem (m : Int) :
    ∀ (n j : Nat), (lastNWeeksLoop m n)[j]? =
      if j < n then some (m - 7 * ((n - 1 - j : Nat) : Int)) else none := by
  intro n
  induction n with
  | zero => intro j; simp [lastNWeeksLoop]
  | succ n ih =>
    intro j
    cases j with
    | zero => simp [lastNWeeksLoop]
    | succ j =>
      simp only [lastNWeeksLoop, List.getElem?_cons_succ, ih j]
      by_cases h : j < n
      · rw [if_pos h, if_pos (by omega)]
        congr 2
        omega
      · rw [if_neg h, if_neg (by omega)]

lemma lastNWeeksEndingAt_getElem (n : Nat) (e : Int) (j : Nat) (h : j < n) :
    (lastNWeeksEndingAt n e)[j]? = some (weekStartISO e - 7 * ((n - 1 - j : Nat) : Int)) := by
  rw [lastNWeeksEndingAt, lastNWeeksLoop_getElem, if_pos h]

/-- C2: `lastNWeeksEndingAt n ref` returns exactly `n` labels, each label
exactly 7 days after the previous (hence oldest first), and the last label is
`weekStartISO ref`. -/
theorem lastNWeeksEndingAt_spec (n : Nat) (ref : Int) :
    (lastNWeeksEndingAt n ref).length = n ∧
    (∀ i : Nat, i + 1 < n →
      (lastNWeeksEndingAt n ref)[i + 1]? =
        ((lastNWeeksEndingAt n ref)[i]?).map (fun x => x + 7)) ∧
    (0 < n → (lastNWeeksEndingAt n ref).getLast? = some (weekStartISO ref)) := by
  refine ⟨lastNWeeksLoop_length _ _, ?_, ?_⟩
  · intro i hi
    rw [lastNWeeksEndingAt_getElem n ref (i + 1) hi,
      lastNWeeksEndingAt_getElem n ref i (by omega)]
    simp only [Option.map_some']
    congr 1
    omega
  · intro hn
    rw [List.getLast?_eq_getElem?]
    rw [show (lastNWeeksEndingAt n ref).length = n from lastNWeeksLoop_length _ _,
      lastNWeeksEndingAt_getElem n ref (n - 1) (by omega)]
    congr 1
    omega

/-- Witness for C2: concrete instantiation at `n = 3`, reference day 10. -/
theorem lastNWeeksEndingAt_spec_witness :
    (lastNWeeksEndingAt 3 10).getLast? = some (weekStartISO 10) :=
  (lastNWeeksEndingAt_spec 3 10).2.2 (by norm_num)

lemma weeksFromRangeLoop_length_eq (mondayEnd : Int) :
    ∀ (s : Nat) (d : Int) (acc : List Int), d ≤ mondayEnd →
      ((mondayEnd - d) / 7).toNat = s → acc.length ≤ 520 →
      (weeksFromRangeLoop mondayEnd d acc).length = min (acc.length + s + 1) 521 := by
  intro s
  induction s with
  | zero =>
    intro d acc hd hs hacc
    rw [weeksFromRangeLoop, dif_pos hd]
    by_cases hlen : 520 < (acc ++ [d]).length
    · rw [if_pos hlen]
      simp only [List.length_append, List.length_singleton] at hlen ⊢
      omega
    · rw [if_neg hlen]
      have hstop : ¬ (d + 7 ≤ mondayEnd) := by omega
      rw [weeksFromRangeLoop, dif_neg hstop]
      simp only [List.length_append, List.length_singleton] at hlen ⊢
      omega
  | succ s ih =>
    intro d acc hd hs hacc
    rw [weeksFromRangeLoop, dif_pos hd]
    by_cases hlen : 520 < (acc ++ [d]).length
    · rw [if_pos hlen]
      simp only [List.length_append, List.length_singleton] at hlen ⊢
      omega
    · rw [if_neg hlen]
      have hd7 : d + 7 ≤ mondayEnd := by omega
      have hs7 : ((mondayEnd - (d + 7)) / 7).toNat = s := by omega
      have hacc7 : (acc ++ [d]).length ≤ 520 := by
        simp only [List.length_append, List.length_singleton] at hlen ⊢
        omega
      rw [ih (d + 7) (acc ++ [d]) hd7 hs7 hacc7]
      simp only [List.length_append, List.length_singleton]
      omega

/-- C3 counterexample: a 601-Monday range yields 521 labels, exceeding the
claimed cap of 520 (the loop pushes one label past the 520 check before
breaking). -/
theorem weeksFromRange_cap_counterexample :
    (weeksFromRange 4 4204).length = 521 ∧
    ¬ ((weeksFromRange 4 4204).length ≤ 520) := by
  have h4 : weekStartISO 4 = 4 := by decide
  have he : weekStartISO 4204 = 4204 := by decide
  have hlen : (weeksFromRange 4 4204).length = min (0 + 600 + 1) 521 := by
    unfold weeksFromRange
    rw [weeksFromRangeLoop_length_eq (weekStartISO 4204) 600 (weekStartISO 4) []
      (by rw [h4, he]; norm_num) (by rw [h4, he]; decide) (by simp)]
    simp
  rw [hlen]
  norm_num

/-- C3 amended: for every pair of dates, `weeksFromRange` returns at most
521 labels; overlong ranges are silently truncated, never rejected. -/
theorem weeksFromRange_length_le (s e : Int) :
    (weeksFromRange s e).length ≤ 521 := by
  unfold weeksFromRange
  by_cases h : weekStartISO s ≤ weekStartISO e
  · rw [weeksFromRangeLoop_length_eq (weekStartISO e)
      ((weekStartISO e - weekStartISO s) / 7).toNat (weekStartISO s) [] h rfl (by simp)]
    omega
  · rw [weeksFromRangeLoop, dif_neg h]
    simp

/-- Model of `Number.prototype.toFixed(2)` followed by `Number(...)` on an exact
decimal: round to the nearest hundredth, ties toward the larger value. -/
def round2 (q : ℚ) : ℚ := (⌊q * 100 + 1 / 2⌋ : ℚ) / 100

/-- Model of `Map.prototype.get`: the value at the first matching key, if any. -/
def jget? {α β : Type} [DecidableEq α] : List (α × β) → α → Option β
  | [], _ => none
  | p :: t, k => if p.1 = k then some p.2 else jget? t k

/-- Model of `Map.prototype.set`: replace in place at the first matching key, append
at the end when the key is absent. -/
def jset {α β : Type} [DecidableEq α] : List (α × β) → α → β → List (α × β)
  | [], k, v => [(k, v)]
  | p :: t, k, v => if p.1 = k then (k, v) :: t else p :: jset t k v

lemma jget?_jset_self {α β : Type} [DecidableEq α] (m : List (α × β)) (k : α) (v : β) :
    jget? (jset m k v) k = some v := by
  induction m with
  | nil => simp [jget?, jset]
  | cons p t ih =>
    by_cases h : p.1 = k
    · simp [jset, h, jget?]
    · simp [jset, h, jget?, ih]

lemma jget?_jset_ne {α β : Type} [DecidableEq α] (m : List (α × β)) (k k' : α) (v : β)
    (h : k' ≠ k) : jget? (jset m k v) k' = jget? m k' := by
  have hk : ¬ (k = k') := fun hh => h hh.symm
  induction m with
  | nil => simp [jget?, jset, hk]
  | cons p t ih =>
    by_cases hp : p.1 = k
    · simp [jset, hp, jget?, hk]
    · by_cases hpk : p.1 = k'
      · simp [jset, hp, jget?, hpk, h]
      · simp [jset, hp, jget?, hpk, ih]

lemma jkeys_jset {α β : Type} [DecidableEq α] (m : List (α × β)) (k : α) (v : β) :
    (jset m k v).map Prod.fst =
      if k ∈ m.map Prod.fst then m.map Prod.fst else m.map Prod.fst ++ [k] := by
  induction m with
  | nil => simp [jset]
  | cons p t ih =>
    by_cases h : p.1 = k
    · simp [jset, h]
    · by_cases hm : k ∈ t.map Prod.fst
      · simp [jset, h, ih, hm, Ne.symm h]
      · simp [jset, h, ih, hm, Ne.symm h]

lemma jkeys_nodup_jset {α β : Type} [DecidableEq α] (m : List (α × β)) (k : α) (v : β)
    (h : (m.map Prod.fst).Nodup) : ((jset m k v).map Prod.fst).Nodup := by
  rw [jkeys_jset]
  by_cases hm : k ∈ m.map Prod.fst
  · rwa [if_pos hm]
  · rw [if_neg hm]
    simp [List.nodup_append, h, hm]

/-- A parsed dataset row as consumed by the aggregation pass: `id`,
`location`, `purchase_date` (epoch day), `purchase_amount` (`none` models a
cell on which `parseFloat` returns `NaN`), `purchase_type`. -/
structure Row where
  id : String
  location : String
  purchase_date : Int
  purchase_amount : Option ℚ
  purchase_type : String

/-- Result of `computeAggregates` (dashboard.js lines 62–88): the target
user's week → sum map, and the state → user → week → sum map. -/
structure Aggregates where
  userMap : List (Int × ℚ)
  stateUserWeek : List (String × List (String × List (Int × ℚ)))

/-- One iteration of the row loop in `computeAggregates` (dashboard.js
lines 68–85): skip on `NaN` amount, bucket the date, add into the target
user's map when the id matches, and add into the per-state per-user map. -/
def aggStep (userId : String) (acc : Aggregates) (r : Row) : Aggregates :=
  match r.purchase_amount with
  | none => acc
  | some amt =>
    let week := weekStartISO r.purchase_date
    let userMap' := if r.id = userId
      then jset acc.userMap week ((jget? acc.userMap week).getD 0 + amt)
      else acc.userMap
    let inState := (jget? acc.stateUserWeek r.location).getD []
    let weekMap := (jget? inState r.id).getD []
    let weekMap' := jset weekMap week ((jget? weekMap week).getD 0 + amt)
    { userMap := userMap',
      stateUserWeek := jset acc.stateUserWeek r.location (jset inState r.id weekMap') }

/-- Model of `computeAggregates` (dashboard.js lines 62–88). -/
def computeAggregates (rows : List Row) (userId : String) : Aggregates :=
  rows.foldl (aggStep userId) ⟨[], []⟩

/-- One iteration of the type-filtered aggregation loop inside
`drawChartForUser` (dashboard.js lines 296–312): identical to `aggStep` but
rows whose `purchase_type` is not selected are skipped first. -/
def aggStepFiltered (types : List String) (userId : String) (acc : Aggregates) (r : Row) :
    Aggregates :=
  if r.purchase_type ∈ types then aggStep userId acc r else acc

/-- The type-filtered aggregation of `drawChartForUser` (dashboard.js
lines 292–312). -/
def computeAggregatesFiltered (rows : List Row) (types : List String) (userId : String) :
    Aggregates :=
  rows.foldl (aggStepFiltered types userId) ⟨[], []⟩

/-- Model of `computeStateAverageForWeeks` (dashboard.js lines 90–106): for each week,
sum every recorded user's total for that week (missing → 0), divide by the
number of recorded users (0 users → average 0), round to 2 decimals. -/
def computeStateAverageForWeeks (smap : List (String × List (String × List (Int × ℚ))))
    (state : String) (weeks : List Int) : List ℚ :=
  let userMap := (jget? smap state).getD []
  weeks.map (fun w =>
    let s := (userMap.map (fun p => (jget? p.2 w).getD 0)).sum
    let avg := if userMap.length = 0 then 0 else s / (userMap.length : ℚ)
    round2 avg)

/-- Model of `mapUserToWeeks` (dashboard.js lines 108–110): project a week → sum map
onto a week sequence, substituting 0 and rounding to 2 decimals. -/
def mapUserToWeeks (userMap : List (Int × ℚ)) (weeks : List Int) : List ℚ :=
  weeks.map (fun w => round2 ((jget? userMap w).getD 0))

lemma round2_zero : round2 0 = 0 := by
  have h : ⌊(0 : ℚ) * 100 + 1 / 2⌋ = 0 := by
    rw [Int.floor_eq_zero_iff]
    constructor <;> norm_num
  rw [round2, h]
  norm_num

/-- C5: `computeStateAverageForWeeks` returns 0 for each week when the state
has no recorded users, and for a state with exactly one recorded user it
returns that user's rounded weekly totals (missing weeks counting as 0),
i.e. exactly `mapUserToWeeks` of that user's map. -/
theorem computeStateAverage_empty_and_single
    (smap : List (String × List (String × List (Int × ℚ))))
    (state : String) (weeks : List Int) :
    ((jget? smap state).getD [] = [] →
      computeStateAverageForWeeks smap state weeks = weeks.map (fun _ => 0)) ∧
    (∀ (i : String) (wm : List (Int × ℚ)), jget? smap state = some [(i, wm)] →
      computeStateAverageForWeeks smap state weeks = mapUserToWeeks wm weeks) := by
  constructor
  · intro h
    simp [computeStateAverageForWeeks, h, round2_zero]
  · intro i wm h
    simp [computeStateAverageForWeeks, h, mapUserToWeeks]

/-- Witness for C5: a one-user cohort's average series is exactly that
user's rounded weekly series. -/
theorem computeStateAverage_single_witness :
    computeStateAverageForWeeks [("Texas", [("1", [(4, (50 : ℚ))])])] "Texas" [4, 11] =
      mapUserToWeeks [(4, (50 : ℚ))] [4, 11] :=
  (computeStateAverage_empty_and_single _ "Texas" [4, 11]).2 "1" [(4, (50 : ℚ))] rfl

lemma aggStep_none (uid : String) (acc : Aggregates) (r : Row)
    (h : r.purchase_amount = none) : aggStep uid acc r = acc := by
  simp [aggStep, h]

lemma aggStepFiltered_none (types : List String) (uid : String) (acc : Aggregates) (r : Row)
    (h : r.purchase_amount = none) : aggStepFiltered types uid acc r = acc := by
  simp [aggStepFiltered, aggStep_none uid acc r h]

lemma foldl_aggStep_filter (uid : String) :
    ∀ (rows : List Row) (acc : Aggregates),
      rows.foldl (aggStep uid) acc =
        (rows.filter (fun r => (r.purchase_amount).isSome)).foldl (aggStep uid) acc := by
  intro rows
  induction rows with
  | nil => intro acc; rfl
  | cons r t ih =>
    intro acc
    cases h : r.purchase_amount with
    | none => simp [List.filter_cons, h, aggStep_none uid acc r h, ih]
    | some v => simp [List.filter_cons, h, ih]

lemma foldl_aggStepFiltered_filter (types : List String) (uid : String) :
    ∀ (rows : List Row) (acc : Aggregates),
      rows.foldl (aggStepFiltered types uid) acc =
        (rows.filter (fun r => (r.purchase_amount).isSome)).foldl (aggStepFiltered types uid) acc := by
  intro rows
  induction rows with
  | nil => intro acc; rfl
  | cons r t ih =>
    intro acc
    cases h : r.purchase_amount with
    | none => simp [List.filter_cons, h, aggStepFiltered_none types uid acc r h, ih]
    | some v => simp [List.filter_cons, h, ih]

/-- C7: rows whose amount is non-numeric contribute to neither the target
user's weekly map nor any state's per-user weekly totals, and do not abort
aggregation: both aggregation passes give the same result on the full row
list as on the list with all non-numeric-amount rows removed. -/
theorem aggregation_skips_nonnumeric (rows : List Row) (uid : String) (types : List String) :
    computeAggregates rows uid =
      computeAggregates (rows.filter (fun r => (r.purchase_amount).isSome)) uid ∧
    computeAggregatesFiltered rows types uid =
      computeAggregatesFiltered (rows.filter (fun r => (r.purchase_amount).isSome)) types uid :=
  ⟨foldl_aggStep_filter uid rows _, foldl_aggStepFiltered_filter types uid rows _⟩

/-- The ids recorded under one state in the aggregation result: the key set
whose size is the divisor of `computeStateAverageForWeeks`. -/
def stateEntities (agg : Aggregates) (st : String) : List String :=
  ((jget? agg.stateUserWeek st).getD []).map Prod.fst

lemma stateEntities_aggStep (uid : String) (acc : Aggregates) (r : Row) (st i : String) :
    i ∈ stateEntities (aggStep uid acc r) st ↔
      i ∈ stateEntities acc st ∨
        ((r.purchase_amount).isSome = true ∧ r.id = i ∧ r.location = st) := by
  cases h : r.purchase_amount with
  | none => simp [aggStep_none uid acc r h, h]
  | some v =>
    simp only [aggStep, h]
    by_cases hst : r.location = st
    · subst hst
      simp only [stateEntities]
      rw [jget?_jset_self]
      simp only [Option.getD_some]
      rw [jkeys_jset]
      by_cases hmem : r.id ∈ ((jget? acc.stateUserWeek r.location).getD []).map Prod.fst
      · rw [if_pos hmem]
        constructor
        · exact fun hi => Or.inl hi
        · rintro (hi | ⟨-, hid, -⟩)
          · exact hi
          · exact hid ▸ hmem
      · rw [if_neg hmem]
        simp [eq_comm]
    · simp only [stateEntities]
      rw [jget?_jset_ne _ _ _ _ (fun hh => hst hh.symm)]
      simp [hst]

lemma stateEntities_foldl (uid : String) :
    ∀ (rows : List Row) (acc : Aggregates) (st i : String),
      i ∈ stateEntities (rows.foldl (aggStep uid) acc) st ↔
        i ∈ stateEntities acc st ∨
          ∃ r ∈ rows, (r.purchase_amount).isSome = true ∧ r.id = i ∧ r.location = st := by
  intro rows
  induction rows with
  | nil => intro acc st i; simp
  | cons r t ih =>
    intro acc st i
    rw [List.foldl_cons, ih, stateEntities_aggStep]
    simp only [List.mem_cons]
    constructor
    · rintro ((hi | hr) | ⟨r', hr', hc⟩)
      · exact Or.inl hi
      · exact Or.inr ⟨r, Or.inl rfl, hr⟩
      · exact Or.inr ⟨r', Or.inr hr', hc⟩
    · rintro (hi | ⟨r', (rfl | hr'), hc⟩)
      · exact Or.inl (Or.inl hi)
      · exact Or.inl (Or.inr hc)
      · exact Or.inr ⟨r', hr', hc⟩

lemma stateEntities_nodup_aggStep (uid : String) (acc : Aggregates) (r : Row) (st : String)
    (h : ∀ s, (stateEntities acc s).Nodup) :
    (stateEntities (aggStep uid acc r) st).Nodup := by
  cases hamt : r.purchase_amount with
  | none => rw [aggStep_none uid acc r hamt]; exact h st
  | some v =>
    simp only [aggStep, hamt]
    by_cases hst : r.location = st
    · subst hst
      simp only [stateEntities]
      rw [jget?_jset_self]
      simp only [Option.getD_some]
      exact jkeys_nodup_jset _ _ _ (h r.location)
    · simp only [stateEntities]
      rw [jget?_jset_ne _ _ _ _ (fun hh => hst hh.symm)]
      exact h st

lemma stateEntities_nodup_foldl (uid : String) :
    ∀ (rows : List Row) (acc : Aggregates), (∀ s, (stateEntities acc s).Nodup) →
      ∀ st, (stateEntities (rows.foldl (aggStep uid) acc) st).Nodup := by
  intro rows
  induction rows with
  | nil => intro acc h st; exact h st
  | cons r t ih =>
    intro acc h st
    rw [List.foldl_cons]
    exact ih _ (fun s => stateEntities_nodup_aggStep uid acc r s h) st

/-- C10: in the aggregation pass an id is recorded under a state exactly when
it has at least one valid-amount row located in that state — an entity whose
rows carry different states is recorded independently under each of them —
and the recorded id list of every state is duplicate-free, so each entity
counts once toward that state's divisor. -/
theorem stateEntities_per_cohort (rows : List Row) (uid st : String) :
    (stateEntities (computeAggregates rows uid) st).Nodup ∧
    (∀ i : String, i ∈ stateEntities (computeAggregates rows uid) st ↔
      ∃ r ∈ rows, (r.purchase_amount).isSome = true ∧ r.id = i ∧ r.location = st) := by
  constructor
  · exact stateEntities_nodup_foldl uid rows ⟨[], []⟩
      (fun s => by simp [stateEntities, jget?]) st
  · intro i
    rw [computeAggregates, stateEntities_foldl]
    simp [stateEntities, jget?]

/-- Witness for C10: an entity with valid rows in two states is recorded
under both. -/
theorem stateEntities_per_cohort_witness :
    "1" ∈ stateEntities (computeAggregates
        [{ id := "1", location := "Texas", purchase_date := 4,
           purchase_amount := some 50, purchase_type := "Food" },
         { id := "1", location := "Ohio", purchase_date := 4,
           purchase_amount := some 1, purchase_type := "Food" }] "9") "Ohio" :=
  ((stateEntities_per_cohort
      [{ id := "1", location := "Texas", purchase_date := 4,
         purchase_amount := some 50, purchase_type := "Food" },
       { id := "1", location := "Ohio", purchase_date := 4,
         purchase_amount := some 1, purchase_type := "Food" }] "9" "Ohio").2 "1").mpr
    ⟨{ id := "1", location := "Ohio", purchase_date := 4,
       purchase_amount := some 1, purchase_type := "Food" },
     by simp, rfl, rfl, rfl⟩

/-- Split a character sequence at every newline, keeping empty segments
(the segment list is one longer than the number of separators). -/
def splitNL : List Char → List (List Char)
  | [] => [[]]
  | c :: rest =>
    if c = '\n' then [] :: splitNL rest
    else
      match splitNL rest with
      | [] => [[c]]
      | l :: ls => (c :: l) :: ls

/-- Drop one trailing carriage return from a line.  Applied to a segment
that ends at a newline boundary, because the split of the source consumes a
carriage return exactly when a newline immediately follows it. -/
def stripCR (l : List Char) : List Char :=
  match l.getLast? with
  | some c => if c = '\r' then l.dropLast else l
  | none => l

/-- Apply a function to every element except the last. -/
def mapInit (f : List Char → List Char) : List (List Char) → List (List Char)
  | [] => []
  | [l] => [l]
  | l :: ls => f l :: mapInit f ls

/-- JavaScript line split used by `parseCSV` (dashboard.js line 13):
split on CRLF or LF.  A lone carriage return is not a separator: every
segment except the last ends right before a newline, so its trailing
carriage return (if any) was the first half of a CRLF separator and is
consumed, while a trailing carriage return of the last segment is not
followed by a newline and is kept. -/
def splitLinesJS (text : List Char) : List (List Char) :=
  mapInit stripCR (splitNL text)

/-- Split a line at every comma, as `l.split(',')` does. -/
def splitComma : List Char → List (List Char)
  | [] => [[]]
  | c :: rest =>
    if c = ',' then [] :: splitComma rest
    else
      match splitComma rest with
      | [] => [[c]]
      | l :: ls => (c :: l) :: ls

/-- Whitespace recognised by the trim of header cells. -/
def isSpaceChar (c : Char) : Bool :=
  c = ' ' || c = '\t' || c = '\r' || c = '\n'

/-- Trim of a header cell (`h.trim()`). -/
def trimList (l : List Char) : List Char :=
  ((l.dropWhile isSpaceChar).reverse.dropWhile isSpaceChar).reverse

/-- Model of `parseCSV` (dashboard.js lines 12–23): split the text into
non-empty lines; with no non-empty line at all, `lines.shift()` is
`undefined` and the call throws (modelled as `none`); otherwise the first
line is the trimmed header and each further line is zipped positionally
against the header, missing trailing fields staying absent. -/
def parseCSV (text : List Char) :
    Option (List (List Char) × List (List (Option (List Char)))) :=
  match (splitLinesJS text).filter (fun l => !l.isEmpty) with
  | [] => none
  | h :: rest =>
    let header := (splitComma h).map trimList
    some (header, rest.map (fun l =>
      let parts := splitComma l
      (List.range header.length).map (fun i => parts[i]?)))

/-- C9: on text with no non-empty line the parser fails (the distinguished
empty-input failure), and on text with at least one non-empty line it
succeeds. -/
theorem parseCSV_empty_behavior (text : List Char) :
    ((splitLinesJS text).filter (fun l => !l.isEmpty) = [] → parseCSV text = none) ∧
    ((splitLinesJS text).filter (fun l => !l.isEmpty) ≠ [] → (parseCSV text).isSome = true) := by
  constructor
  · intro h
    simp [parseCSV, h]
  · intro h
    rcases hc : (splitLinesJS text).filter (fun l => !l.isEmpty) with - | ⟨a, t⟩
    · exact absurd hc h
    · simp [parseCSV, hc]

/-- Witness for C9: the empty text and a blank-lines-only text fail, a text
with one non-empty line succeeds, and a text that is a single lone carriage
return is a non-empty line (the split does not consume it), so it
succeeds. -/
theorem parseCSV_empty_behavior_witness :
    parseCSV [] = none ∧
    parseCSV ['\r', '\n', '\n'] = none ∧
    (parseCSV ['a', ',', 'b', '\n', 'c']).isSome = true ∧
    (parseCSV ['\r']).isSome = true :=
  ⟨(parseCSV_empty_behavior []).1 (by decide),
   (parseCSV_empty_behavior ['\r', '\n', '\n']).1 (by decide),
   (parseCSV_empty_behavior ['a', ',', 'b', '\n', 'c']).2 (by decide),
   (parseCSV_empty_behavior ['\r']).2 (by decide)⟩

/-- First-argument-starts-with-second test on character sequences. -/
def startsWithList : List Char → List Char → Bool
  | _, [] => true
  | [], _ :: _ => false
  | a :: as, b :: bs => a == b && startsWithList as bs

/-- JavaScript `String.prototype.includes`: `hasSubstring l sub` holds when
`sub` occurs contiguously inside `l`. -/
def hasSubstring : List Char → List Char → Bool
  | [], sub => sub.isEmpty
  | a :: rest, sub => startsWithList (a :: rest) sub || hasSubstring rest sub

/-- The normalizer `norm` of `drawChartForUser` (dashboard.js line 323):
lowercase, then strip every character outside `[a-z0-9]`. -/
def normCat (s : List Char) : List Char :=
  (s.map Char.toLower).filter (fun c => ('a' ≤ c && c ≤ 'z') || ('0' ≤ c && c ≤ '9'))

/-- The per-key test of the matching loop (dashboard.js lines 332–337):
normalized equality, or containment in either direction. -/
def catMatches (key query : List Char) : Bool :=
  let k := normCat key
  let target := normCat query
  k == target || hasSubstring k target || hasSubstring target k

/-- The matching loop of `drawChartForUser` (dashboard.js lines 328–340):
the first reference entry whose key matches the selected category. -/
def refMatch (table : List (List Char × List (List Char × ℚ))) (query : List Char) :
    Option (List Char × List (List Char × ℚ)) :=
  table.find? (fun kv => catMatches kv.1 query)

/-- The reference table of the C6 scenario: one entry, item name
`Groceries`, South region weekly mean 120.5. -/
def groceriesTable : List (List Char × List (List Char × ℚ)) :=
  [("Groceries".toList, [("South".toList, (120.5 : ℚ))])]

/-- C6 counterexample: selecting the category `grocery store` against the
scenario table finds no match, so no reference value (and in particular not
120.50) is produced. -/
theorem groceryMatch_counterexample :
    refMatch groceriesTable "grocery store".toList = none := by
  decide

/-- C6 amended: the normalizations are `grocerystore` and `groceries`,
neither normalized string contains the other, and therefore the
normalized-substring match fails and the category contributes no flat
reference value. -/
theorem groceryMatch_amended :
    normCat "grocery store".toList = "grocerystore".toList ∧
    normCat "Groceries".toList = "groceries".toList ∧
    hasSubstring (normCat "Groceries".toList) (normCat "grocery store".toList) = false ∧
    hasSubstring (normCat "grocery store".toList) (normCat "Groceries".toList) = false ∧
    refMatch groceriesTable "grocery store".toList = none := by
  refine ⟨by decide, by decide, by decide, by decide, ?_⟩
  decide

/-- A JavaScript number as it can reach the income-scaling guard: NaN,
positive or negative infinity, or a finite value. -/
inductive JsNum where
  | nan : JsNum
  | inf : JsNum
  | ninf : JsNum
  | num : ℚ → JsNum
deriving DecidableEq

/-- JavaScript `Number.isFinite`. -/
def JsNum.isFinite : JsNum → Bool
  | num _ => true
  | _ => false

/-- JavaScript truthiness of a number: `0` and `NaN` are falsy. -/
def JsNum.truthy : JsNum → Bool
  | nan => false
  | inf => true
  | ninf => true
  | num q => decide (q ≠ 0)

/-- JavaScript `x > 0`: false for NaN, true for positive infinity. -/
def JsNum.gtZero : JsNum → Bool
  | nan => false
  | inf => true
  | ninf => false
  | num q => decide (0 < q)

/-- JavaScript division on numbers (signed zero identified with zero):
any NaN operand gives NaN, infinity over infinity gives NaN, a finite value
over an infinity gives 0, an infinity over a finite value keeps its sign,
and a nonzero finite value over zero gives a signed infinity. -/
def jsDiv : JsNum → JsNum → JsNum
  | .nan, _ => .nan
  | .inf, .nan => .nan
  | .ninf, .nan => .nan
  | .num _, .nan => .nan
  | .inf, .inf => .nan
  | .inf, .ninf => .nan
  | .ninf, .inf => .nan
  | .ninf, .ninf => .nan
  | .inf, .num q => if q < 0 then .ninf else .inf
  | .ninf, .num q => if q < 0 then .inf else .ninf
  | .num _, .inf => .num 0
  | .num _, .ninf => .num 0
  | .num a, .num b =>
    if b = 0 then (if a = 0 then .nan else if 0 < a then .inf else .ninf)
    else .num (a / b)

/-- The income-scaling guard of `drawChartForUser` (dashboard.js
lines 349–360): the factor `userWeeklyInc / regionAvgInc` is applied only
when `regionAvgInc` is truthy, `userWeeklyInc` is finite and positive, and
`regionAvgInc > 0`; in every other case the reference value is left
unscaled, i.e. the factor is 1.  A `none` average models the `null` return
of `computeRegionAverageWeeklyIncome`. -/
def incomeScaleFactor (userInc : JsNum) (avgInc : Option JsNum) : JsNum :=
  match avgInc with
  | none => .num 1
  | some a =>
    if a.truthy && userInc.isFinite && userInc.gtZero && a.gtZero
    then jsDiv userInc a
    else .num 1

/-- C8 counterexample: with a finite positive individual income and a
positive-infinite cohort average (non-finite, so the claim demands factor
1), the code's guard passes — it never checks the average for finiteness —
and the factor is `2000 / ∞ = 0`, not 1. -/
theorem incomeScaleFactor_inf_counterexample :
    incomeScaleFactor (JsNum.num 2000) (some JsNum.inf) = JsNum.num 0 ∧
    JsNum.num 0 ≠ JsNum.num 1 := by
  constructor
  · decide
  · decide

/-- C8 amended: the factor is `u / a` when both incomes are finite and
strictly positive; it is 1 when the individual income is zero or
non-finite, or the cohort average is unavailable, zero, NaN, or negative
infinity; but when the cohort average is positive infinity and the
individual income is finite and positive, the factor is 0, not 1. -/
theorem incomeScaleFactor_spec (u : JsNum) (a : Option JsNum) :
    (∀ uq aq : ℚ, u = .num uq → a = some (.num aq) → 0 < uq → 0 < aq →
      incomeScaleFactor u a = .num (uq / aq)) ∧
    (u = .num 0 ∨ u.isFinite = false ∨
        a = none ∨ a = some (.num 0) ∨ a = some .nan ∨ a = some .ninf →
      incomeScaleFactor u a = .num 1) ∧
    (∀ uq : ℚ, u = .num uq → 0 < uq → a = some .inf →
      incomeScaleFactor u a = .num 0) := by
  refine ⟨?_, ?_, ?_⟩
  · rintro uq aq rfl rfl huq haq
    have h1 : aq ≠ 0 := ne_of_gt haq
    simp [incomeScaleFactor, JsNum.truthy, JsNum.isFinite, JsNum.gtZero, h1, huq, haq, jsDiv]
  · rintro (rfl | hnf | rfl | rfl | rfl | rfl)
    · rcases a with - | a'
      · rfl
      · simp [incomeScaleFactor, JsNum.gtZero, JsNum.isFinite]
    · rcases a with - | a'
      · rfl
      · simp [incomeScaleFactor, hnf]
    · rfl
    · simp [incomeScaleFactor, JsNum.truthy]
    · simp [incomeScaleFactor, JsNum.truthy]
    · simp [incomeScaleFactor, JsNum.truthy, JsNum.gtZero]
  · rintro uq rfl huq rfl
    simp [incomeScaleFactor, JsNum.truthy, JsNum.isFinite, JsNum.gtZero, huq, jsDiv]

/-- Witness for C8: finite positive incomes 2000 and 1000 give factor 2. -/
theorem incomeScaleFactor_spec_witness :
    incomeScaleFactor (JsNum.num 2000) (some (JsNum.num 1000)) = JsNum.num 2 := by
  have h := (incomeScaleFactor_spec (JsNum.num 2000) (some (JsNum.num 1000))).1
    2000 1000 rfl rfl (by norm_num) (by norm_num)
  rw [h]
  norm_num
